import Mathlib

/-!
Verification of the request-to-query translation and response-normalization
contract of the neo4j_gpt_server repository (src/server.js and the two
unnamed revisions; claims cite src/server.js and src/unnamed/part_001).

The JavaScript handlers are shallowly embedded as pure Lean functions:
the Neo4j store is a list of nodes, Cypher MERGE/CREATE/SET clauses become
explicit state updates, `JSON.stringify`/`JSON.parse` are modelled by an
executable serializer and parser over a JSON syntax tree (numbers are
modelled as integers, inter-token whitespace is not modelled: the
serializer emits none), and the session lifecycle is modelled as an event
trace.  All definitions are executable.
-/

/-- JSON values, as produced by `JSON.parse` and consumed by
`JSON.stringify`.  Numbers are modelled as integers. -/
inductive Json where
  | null : Json
  | bool : Bool → Json
  | num : Int → Json
  | str : String → Json
  | arr : List Json → Json
  | obj : List (String × Json) → Json
deriving Repr

/-- JavaScript truthiness of a JSON value (used for `!value` checks). -/
def jsTruthy : Json → Bool
  | .null => false
  | .bool b => b
  | .num n => n != 0
  | .str s => s != ""
  | .arr _ => true
  | .obj _ => true

/-- Test `typeof v === "object"` for a JSON value: true for objects, arrays and
`null` (JavaScript's `typeof null` is `"object"`). -/
def isJsObject : Json → Bool
  | .null => true
  | .arr _ => true
  | .obj _ => true
  | _ => false

/-- Coercion `String(v)` for the non-object JSON values. -/
def jsToString : Json → String
  | .null => "null"
  | .bool b => if b then "true" else "false"
  | .num n => toString n
  | .str s => s
  | .arr _ => ""
  | .obj _ => ""

/-- Decimal digits of `n`, most significant first (`"0"` for zero), as
characters. -/
def natChars (n : Nat) : List Char :=
  if n = 0 then ['0'] else (Nat.digits 10 n).reverse.map Nat.digitChar

/-- Decimal representation of an integer, as `JSON.stringify` prints it. -/
def intChars (n : Int) : List Char :=
  if n < 0 then '-' :: natChars n.natAbs else natChars n.toNat

/-- The escape `JSON.stringify` applies to one string character: named
escapes for quote, backslash and the common control characters, `\u00XX`
for the remaining control characters, everything else verbatim. -/
def escChar (c : Char) : List Char :=
  if c = '"' then ['\\', '"']
  else if c = '\\' then ['\\', '\\']
  else if c = '\x08' then ['\\', 'b']
  else if c = '\x09' then ['\\', 't']
  else if c = '\x0a' then ['\\', 'n']
  else if c = '\x0c' then ['\\', 'f']
  else if c = '\x0d' then ['\\', 'r']
  else if c.toNat < 32 then
    ['\\', 'u', '0', '0', Nat.digitChar (c.toNat / 16), Nat.digitChar (c.toNat % 16)]
  else [c]

/-- Escape a whole string body. -/
def escChars : List Char → List Char
  | [] => []
  | c :: cs => escChar c ++ escChars cs

mutual

/-- Characters of `JSON.stringify v` (no inter-token whitespace, as in
the canonical output of `JSON.stringify`). -/
def strCharsV : Json → List Char
  | .null => 'n' :: ['u', 'l', 'l']
  | .bool b => if b then 't' :: ['r', 'u', 'e'] else 'f' :: ['a', 'l', 's', 'e']
  | .num n => intChars n
  | .str s => '"' :: (escChars s.data ++ ['"'])
  | .arr [] => ['[', ']']
  | .arr (j :: js) => '[' :: (strCharsItems j js ++ [']'])
  | .obj [] => ['\x7b', '\x7d']
  | .obj (m :: ms) => '\x7b' :: (strCharsMembers m ms ++ ['\x7d'])
termination_by j => sizeOf j

/-- Comma-separated serialization of a non-empty array body. -/
def strCharsItems : Json → List Json → List Char
  | j, [] => strCharsV j
  | j, k :: js => strCharsV j ++ ',' :: strCharsItems k js
termination_by j js => sizeOf j + sizeOf js

/-- Comma-separated serialization of a non-empty object body. -/
def strCharsMembers : (String × Json) → List (String × Json) → List Char
  | (k, v), [] => '"' :: (escChars k.data ++ '"' :: ':' :: strCharsV v)
  | (k, v), m :: ms =>
      ('"' :: (escChars k.data ++ '"' :: ':' :: strCharsV v)) ++ ',' :: strCharsMembers m ms
termination_by m ms => sizeOf m + sizeOf ms

end

/-- Model of `JSON.stringify` on JSON values. -/
def Json.stringify (j : Json) : String := ⟨strCharsV j⟩

/-- Longest leading run of decimal digits, and the remaining input. -/
def takeDigits : List Char → List Char × List Char
  | [] => ([], [])
  | c :: cs =>
      if c.isDigit then
        let p := takeDigits cs
        (c :: p.1, p.2)
      else ([], c :: cs)

/-- Numeric value of a list of decimal digit characters. -/
def digitsVal (ds : List Char) : Nat :=
  ds.foldl (fun a c => 10 * a + (c.toNat - 48)) 0

/-- Decoding of a single named escape character. -/
def unescChar (e : Char) : Option Char :=
  if e = '"' then some '"'
  else if e = '\\' then some '\\'
  else if e = '/' then some '/'
  else if e = 'b' then some '\x08'
  else if e = 't' then some '\x09'
  else if e = 'n' then some '\x0a'
  else if e = 'f' then some '\x0c'
  else if e = 'r' then some '\x0d'
  else none

/-- Hexadecimal digit recognizer. -/
def isHexDigit (c : Char) : Bool :=
  c.isDigit || ('a' ≤ c && c ≤ 'f') || ('A' ≤ c && c ≤ 'F')

/-- Value of one hexadecimal digit character. -/
def hexVal (c : Char) : Nat :=
  if c.isDigit then c.toNat - 48
  else if 'a' ≤ c && c ≤ 'f' then c.toNat - 87
  else c.toNat - 55

mutual

/-- Fuel-indexed JSON value parser (model of `JSON.parse`, restricted to
integer numerals and whitespace-free input). Returns the value and the
unconsumed suffix. -/
def parseVal : Nat → List Char → Option (Json × List Char)
  | 0, _ => none
  | f + 1, cs =>
    match cs with
    | [] => none
    | c :: rest =>
      if c = 'n' then
        match rest with
        | 'u' :: 'l' :: 'l' :: r => some (.null, r)
        | _ => none
      else if c = 't' then
        match rest with
        | 'r' :: 'u' :: 'e' :: r => some (.bool true, r)
        | _ => none
      else if c = 'f' then
        match rest with
        | 'a' :: 'l' :: 's' :: 'e' :: r => some (.bool false, r)
        | _ => none
      else if c = '"' then
        (parseStr f rest).map (fun p => (.str ⟨p.1⟩, p.2))
      else if c = '[' then
        if rest.head? = some ']' then some (.arr [], rest.tail)
        else (parseItems f rest).map (fun p => (.arr p.1, p.2))
      else if c = '\x7b' then
        if rest.head? = some '\x7d' then some (.obj [], rest.tail)
        else (parseMembers f rest).map (fun p => (.obj p.1, p.2))
      else if c = '-' then
        let p := takeDigits rest
        if p.1.isEmpty then none
        else some (.num (-(digitsVal p.1 : Int)), p.2)
      else if c.isDigit then
        let p := takeDigits (c :: rest)
        some (.num (digitsVal p.1 : Int), p.2)
      else none

/-- Parser for the items of a non-empty array, consuming the closing `]`. -/
def parseItems : Nat → List Char → Option (List Json × List Char)
  | 0, _ => none
  | f + 1, cs =>
    match parseVal f cs with
    | none => none
    | some (j, rest) =>
      match rest with
      | ',' :: rest2 => (parseItems f rest2).map (fun p => (j :: p.1, p.2))
      | ']' :: rest2 => some ([j], rest2)
      | _ => none

/-- Parser for the members of a non-empty object, consuming the closing
brace. -/
def parseMembers : Nat → List Char → Option (List (String × Json) × List Char)
  | 0, _ => none
  | f + 1, cs =>
    match cs with
    | '"' :: rest =>
      match parseStr f rest with
      | some (kcs, ':' :: rest2) =>
        match parseVal f rest2 with
        | none => none
        | some (v, rest3) =>
          match rest3 with
          | ',' :: rest4 => (parseMembers f rest4).map (fun p => ((⟨kcs⟩, v) :: p.1, p.2))
          | '\x7d' :: rest4 => some ([(⟨kcs⟩, v)], rest4)
          | _ => none
      | _ => none
    | _ => none

/-- Parser for a string body after the opening quote, consuming the
closing quote. -/
def parseStr : Nat → List Char → Option (List Char × List Char)
  | 0, _ => none
  | f + 1, cs =>
    match cs with
    | [] => none
    | c :: rest =>
      if c = '"' then some ([], rest)
      else if c = '\\' then
        match rest with
        | [] => none
        | e :: rest1 =>
          if e = 'u' then
            match rest1 with
            | h1 :: h2 :: h3 :: h4 :: rest2 =>
              if isHexDigit h1 && isHexDigit h2 && isHexDigit h3 && isHexDigit h4 then
                (parseStr f rest2).map (fun p =>
                  (Char.ofNat (((hexVal h1 * 16 + hexVal h2) * 16 + hexVal h3) * 16 + hexVal h4)
                    :: p.1, p.2))
              else none
            | _ => none
          else
            match unescChar e with
            | some d => (parseStr f rest1).map (fun p => (d :: p.1, p.2))
            | none => none
      else (parseStr f rest).map (fun p => (c :: p.1, p.2))

end

/-- Model of `JSON.parse`: parse the whole string or fail. -/
def Json.parse (s : String) : Option Json :=
  match parseVal (s.length + 1) s.data with
  | some (j, []) => some j
  | _ => none

/-! ### Round-trip of the JSON codec -/

/-- Characters that may legally follow a serialized value (the separators
emitted by the serializer, or end of input). -/
def sepOk : List Char → Bool
  | [] => true
  | c :: _ => c = ',' || c = ']' || c = '\x7d'

theorem sepOk_not_digit {rest : List Char} (h : sepOk rest = true) :
    ∀ c cs, rest = c :: cs → c.isDigit = false := by
  intro c cs hr
  subst hr
  simp only [sepOk, Bool.or_eq_true, decide_eq_true_eq] at h
  rcases h with (h | h) | h <;> subst h <;> decide

theorem takeDigits_append {ds rest : List Char} (hds : ∀ c ∈ ds, c.isDigit = true)
    (hrest : ∀ c cs, rest = c :: cs → c.isDigit = false) :
    takeDigits (ds ++ rest) = (ds, rest) := by
  induction ds with
  | nil =>
    simp only [List.nil_append]
    cases rest with
    | nil => rfl
    | cons c cs => simp [takeDigits, hrest c cs rfl]
  | cons d ds ih =>
    have hd := hds d (by simp)
    simp [takeDigits, hd, ih (fun c hc => hds c (by simp [hc]))]

theorem digitChar_toNat_sub : ∀ d, d < 10 → (Nat.digitChar d).toNat - 48 = d := by decide

theorem digitChar_isDigit : ∀ d, d < 10 → (Nat.digitChar d).isDigit = true := by decide

theorem digitChar_isHex : ∀ d, d < 16 → isHexDigit (Nat.digitChar d) = true := by decide

theorem hexVal_digitChar : ∀ d, d < 16 → hexVal (Nat.digitChar d) = d := by decide

theorem natChars_digits (n : Nat) : ∀ c ∈ natChars n, c.isDigit = true := by
  intro c hc
  unfold natChars at hc
  by_cases h : n = 0
  · simp [h] at hc
    subst hc
    decide
  · simp only [h, if_false, List.mem_map, List.mem_reverse] at hc
    obtain ⟨d, hd, rfl⟩ := hc
    exact digitChar_isDigit d (Nat.digits_lt_base (by norm_num) hd)

theorem natChars_ne_nil (n : Nat) : natChars n ≠ [] := by
  unfold natChars
  by_cases h : n = 0
  · simp [h]
  · simp only [h, if_false, ne_eq, List.map_eq_nil_iff, List.reverse_eq_nil_iff]
    exact Nat.digits_ne_nil_iff_ne_zero.mpr h

theorem digitsVal_concat (ds : List Char) (c : Char) :
    digitsVal (ds ++ [c]) = 10 * digitsVal ds + (c.toNat - 48) := by
  simp [digitsVal, List.foldl_append]

theorem digitsVal_rev_map (L : List Nat) (hL : ∀ d ∈ L, d < 10) :
    digitsVal ((L.reverse).map Nat.digitChar) = Nat.ofDigits 10 L := by
  induction L with
  | nil => simp [digitsVal, Nat.ofDigits]
  | cons d L ih =>
    have hd := hL d (by simp)
    rw [List.reverse_cons, List.map_append]
    simp only [List.map_cons, List.map_nil]
    rw [digitsVal_concat, ih (fun x hx => hL x (by simp [hx])), digitChar_toNat_sub d hd,
      Nat.ofDigits_cons]
    ring

theorem digitsVal_natChars (n : Nat) : digitsVal (natChars n) = n := by
  unfold natChars
  by_cases h : n = 0
  · subst h
    rfl
  · rw [if_neg h, digitsVal_rev_map _ (fun d hd => Nat.digits_lt_base (by norm_num) hd),
      Nat.ofDigits_digits]

theorem uint32_toNat_inj {a b : UInt32} (h : a.toNat = b.toNat) : a = b := by
  cases a
  cases b
  simp only [UInt32.toNat] at h
  congr 1
  exact BitVec.eq_of_toNat_eq h

theorem char_toNat_inj {a b : Char} (h : a.toNat = b.toNat) : a = b :=
  Char.eq_of_val_eq (uint32_toNat_inj h)

theorem charOfNat_toNat {c : Char} (h : c.toNat < 32) : Char.ofNat c.toNat = c := by
  have h2 : ∀ n, n < 32 → (Char.ofNat n).toNat = n := by decide
  exact char_toNat_inj (by rw [h2 _ h])

theorem escChar_length (c : Char) : 1 ≤ (escChar c).length := by
  unfold escChar
  split_ifs <;> simp

theorem escChars_length (cs : List Char) : cs.length ≤ (escChars cs).length := by
  induction cs with
  | nil => simp [escChars]
  | cons c cs ih =>
    have := escChar_length c
    simp only [escChars, List.length_append, List.length_cons]
    omega

theorem parseStr_esc : ∀ (cs : List Char) (f : Nat) (rest : List Char),
    cs.length + 1 ≤ f → parseStr f (escChars cs ++ '"' :: rest) = some (cs, rest) := by
  intro cs
  induction cs with
  | nil =>
    intro f rest hf
    match f, hf with
    | f + 1, _ => simp [parseStr, escChars]
  | cons c cs ih =>
    intro f rest hf
    match f, hf with
    | f + 1, hf =>
      have hfc : cs.length + 1 ≤ f := by
        simp only [List.length_cons] at hf
        omega
      have ihr := ih f rest hfc
      by_cases h1 : c = '"'
      · subst h1
        simp [escChars, escChar, parseStr, unescChar, ihr]
      · by_cases h2 : c = '\\'
        · subst h2
          simp [escChars, escChar, parseStr, unescChar, ihr]
        · by_cases h3 : c = '\x08'
          · subst h3
            simp [escChars, escChar, parseStr, unescChar, ihr]
          · by_cases h4 : c = '\x09'
            · subst h4
              simp [escChars, escChar, parseStr, unescChar, ihr]
            · by_cases h5 : c = '\x0a'
              · subst h5
                simp [escChars, escChar, parseStr, unescChar, ihr]
              · by_cases h6 : c = '\x0c'
                · subst h6
                  simp [escChars, escChar, parseStr, unescChar, ihr]
                · by_cases h7 : c = '\x0d'
                  · subst h7
                    simp [escChars, escChar, parseStr, unescChar, ihr]
                  · by_cases h8 : c.toNat < 32
                    · have hdiv : c.toNat / 16 < 16 := by omega
                      have hmod : c.toNat % 16 < 16 := by omega
                      have hcode :
                          ((hexVal '0' * 16 + hexVal '0') * 16 +
                              hexVal (Nat.digitChar (c.toNat / 16))) * 16 +
                              hexVal (Nat.digitChar (c.toNat % 16)) = c.toNat := by
                        rw [hexVal_digitChar _ hdiv, hexVal_digitChar _ hmod]
                        have h0 : hexVal '0' = 0 := by decide
                        rw [h0]
                        omega
                      have hx0 : isHexDigit '0' = true := by decide
                      simp only [escChars, escChar, h1, h2, h3, h4, h5, h6, h7, h8, if_false,
                        if_true, List.cons_append, List.append_assoc, List.nil_append]
                      simp [parseStr, hx0, digitChar_isHex _ hdiv, digitChar_isHex _ hmod,
                        ihr, hcode, charOfNat_toNat h8]
                    · simp only [escChars, escChar, h1, h2, h3, h4, h5, h6, h7, h8, if_false,
                        List.cons_append, List.nil_append]
                      simp [parseStr, h1, h2, ihr]

mutual

/-- Fuel sufficient to parse the serialization of a value. -/
def jsize : Json → Nat
  | .null => 1
  | .bool _ => 1
  | .num _ => 1
  | .str s => 2 + s.length
  | .arr [] => 1
  | .arr (j :: js) => 1 + jsizeItems j js
  | .obj [] => 1
  | .obj (m :: ms) => 1 + jsizeMembers m ms
termination_by j => sizeOf j

/-- Fuel sufficient to parse a serialized non-empty array body. -/
def jsizeItems : Json → List Json → Nat
  | j, [] => 1 + jsize j
  | j, k :: js => 1 + jsize j + jsizeItems k js
termination_by j js => sizeOf j + sizeOf js

/-- Fuel sufficient to parse a serialized non-empty object body. -/
def jsizeMembers : (String × Json) → List (String × Json) → Nat
  | (k, v), [] => 1 + (k.length + 1) + jsize v
  | (k, v), m :: ms => 1 + (k.length + 1) + jsize v + jsizeMembers m ms
termination_by m ms => sizeOf m + sizeOf ms

end

theorem one_le_jsize (j : Json) : 1 ≤ jsize j := by
  cases j with
  | null => simp [jsize]
  | bool b => simp [jsize]
  | num n => simp [jsize]
  | str s => simp only [jsize]; omega
  | arr js => cases js <;> (simp only [jsize]; omega)
  | obj ms => cases ms <;> (simp only [jsize]; omega)

theorem one_le_jsizeItems (j : Json) (js : List Json) : 1 ≤ jsizeItems j js := by
  cases js <;> (simp only [jsizeItems]; omega)

theorem one_le_jsizeMembers (m : String × Json) (ms : List (String × Json)) :
    1 ≤ jsizeMembers m ms := by
  obtain ⟨k, v⟩ := m
  cases ms <;> (simp only [jsizeMembers]; omega)

theorem isDigit_ne_special {c : Char} (h : c.isDigit = true) :
    c ≠ 'n' ∧ c ≠ 't' ∧ c ≠ 'f' ∧ c ≠ '"' ∧ c ≠ '[' ∧ c ≠ '\x7b' ∧ c ≠ '-' ∧ c ≠ ']' := by
  refine ⟨?_, ?_, ?_, ?_, ?_, ?_, ?_, ?_⟩ <;> (rintro rfl; revert h; decide)

theorem strCharsV_head (j : Json) : ∃ c cs, strCharsV j = c :: cs ∧ c ≠ ']' := by
  cases j with
  | null => exact ⟨'n', ['u', 'l', 'l'], by simp [strCharsV], by decide⟩
  | bool b =>
    cases b with
    | true => exact ⟨'t', ['r', 'u', 'e'], by simp [strCharsV], by decide⟩
    | false => exact ⟨'f', ['a', 'l', 's', 'e'], by simp [strCharsV], by decide⟩
  | num n =>
    by_cases hn : n < 0
    · exact ⟨'-', natChars n.natAbs, by simp [strCharsV, intChars, hn], by decide⟩
    · obtain ⟨d, ds, hnd⟩ := List.exists_cons_of_ne_nil (natChars_ne_nil n.toNat)
      have hd : d.isDigit = true := natChars_digits n.toNat d (by rw [hnd]; simp)
      exact ⟨d, ds, by simp [strCharsV, intChars, hn, hnd],
        (isDigit_ne_special hd).2.2.2.2.2.2.2⟩
  | str s => exact ⟨'"', escChars s.data ++ ['"'], by simp [strCharsV], by decide⟩
  | arr js =>
    cases js with
    | nil => exact ⟨'[', [']'], by simp [strCharsV], by decide⟩
    | cons j js => exact ⟨'[', strCharsItems j js ++ [']'], by simp [strCharsV], by decide⟩
  | obj ms =>
    cases ms with
    | nil => exact ⟨'\x7b', ['\x7d'], by simp [strCharsV], by decide⟩
    | cons m ms =>
      exact ⟨'\x7b', strCharsMembers m ms ++ ['\x7d'], by simp [strCharsV], by decide⟩

theorem strCharsItems_eq (j : Json) (js : List Json) :
    ∃ t, strCharsItems j js = strCharsV j ++ t := by
  cases js with
  | nil => exact ⟨[], by simp [strCharsItems]⟩
  | cons k js => exact ⟨',' :: strCharsItems k js, by simp [strCharsItems]⟩

theorem strCharsMembers_eq (m : String × Json) (ms : List (String × Json)) :
    ∃ t, strCharsMembers m ms = '"' :: t := by
  obtain ⟨k, v⟩ := m
  cases ms with
  | nil => exact ⟨escChars k.data ++ '"' :: ':' :: strCharsV v, by simp [strCharsMembers]⟩
  | cons m ms =>
    exact ⟨escChars k.data ++ '"' :: ':' :: (strCharsV v ++ ',' :: strCharsMembers m ms),
      by simp [strCharsMembers]⟩

theorem string_mk_data (s : String) : (⟨s.data⟩ : String) = s := rfl

theorem parseRound : ∀ f : Nat,
    (∀ j rest, jsize j ≤ f → sepOk rest = true →
      parseVal f (strCharsV j ++ rest) = some (j, rest)) ∧
    (∀ j js rest, jsizeItems j js ≤ f → sepOk rest = true →
      parseItems f (strCharsItems j js ++ ']' :: rest) = some (j :: js, rest)) ∧
    (∀ m ms rest, jsizeMembers m ms ≤ f → sepOk rest = true →
      parseMembers f (strCharsMembers m ms ++ '\x7d' :: rest) = some (m :: ms, rest)) := by
  intro f
  induction f with
  | zero =>
    refine ⟨fun j rest hsz _ => absurd hsz (by have := one_le_jsize j; omega),
      fun j js rest hsz _ => absurd hsz (by have := one_le_jsizeItems j js; omega),
      fun m ms rest hsz _ => absurd hsz (by have := one_le_jsizeMembers m ms; omega)⟩
  | succ f ih =>
    obtain ⟨ihV, ihI, ihM⟩ := ih
    refine ⟨?_, ?_, ?_⟩
    · intro j rest hsz hsep
      cases j with
      | null => simp [strCharsV, parseVal]
      | bool b => cases b <;> simp [strCharsV, parseVal]
      | num n =>
        by_cases hn : n < 0
        · have htd : takeDigits (natChars n.natAbs ++ rest) = (natChars n.natAbs, rest) :=
            takeDigits_append (natChars_digits _) (sepOk_not_digit hsep)
          obtain ⟨d, ds, hnd⟩ := List.exists_cons_of_ne_nil (natChars_ne_nil n.natAbs)
          have hne : (natChars n.natAbs).isEmpty = false := by rw [hnd]; rfl
          have hds : digitsVal (natChars n.natAbs) = n.natAbs := digitsVal_natChars _
          have habs : ((n.natAbs : Int)) = -n := by omega
          simp only [strCharsV, intChars, if_pos hn, List.cons_append]
          simp [parseVal, htd, hne, hds, habs]
        · obtain ⟨d, ds, hnd⟩ := List.exists_cons_of_ne_nil (natChars_ne_nil n.toNat)
          have hd : d.isDigit = true := natChars_digits n.toNat d (by rw [hnd]; simp)
          obtain ⟨hn1, hn2, hn3, hn4, hn5, hn6, hn7, _⟩ := isDigit_ne_special hd
          have htd : takeDigits (natChars n.toNat ++ rest) = (natChars n.toNat, rest) :=
            takeDigits_append (natChars_digits _) (sepOk_not_digit hsep)
          have hds : digitsVal (natChars n.toNat) = n.toNat := digitsVal_natChars _
          simp only [strCharsV, intChars, if_neg hn, hnd, List.cons_append]
          simp only [parseVal]
          rw [if_neg hn1, if_neg hn2, if_neg hn3, if_neg hn4, if_neg hn5, if_neg hn6,
            if_neg hn7, if_pos hd]
          rw [show d :: (ds ++ rest) = natChars n.toNat ++ rest by rw [hnd]; simp]
          rw [htd]
          simp [hds, Int.toNat_of_nonneg (not_lt.mp hn)]
      | str s =>
        have hlen : s.data.length + 1 ≤ f := by
          have h1 : jsize (.str s) = 2 + s.length := by simp [jsize]
          have h2 : s.length = s.data.length := rfl
          omega
        have hps := parseStr_esc s.data f rest hlen
        simp only [strCharsV, List.cons_append, List.append_assoc, List.singleton_append]
        simp [parseVal, hps, string_mk_data]
      | arr js =>
        cases js with
        | nil => simp [strCharsV, parseVal]
        | cons j js =>
          obtain ⟨t, ht⟩ := strCharsItems_eq j js
          obtain ⟨c0, cs0, hc0, hcne⟩ := strCharsV_head j
          have hhead : (strCharsItems j js ++ ']' :: rest).head? = some c0 := by
            rw [ht, hc0]
            simp
          have hsz' : jsizeItems j js ≤ f := by
            have h1 : jsize (.arr (j :: js)) = 1 + jsizeItems j js := by simp [jsize]
            omega
          have hi := ihI j js rest hsz' hsep
          simp only [strCharsV, List.cons_append, List.append_assoc, List.singleton_append]
          simp [parseVal, hhead, hcne, hi]
      | obj ms =>
        cases ms with
        | nil => simp [strCharsV, parseVal]
        | cons m ms =>
          obtain ⟨t, ht⟩ := strCharsMembers_eq m ms
          have hhead : (strCharsMembers m ms ++ '\x7d' :: rest).head? = some '"' := by
            rw [ht]
            simp
          have hsz' : jsizeMembers m ms ≤ f := by
            have h1 : jsize (.obj (m :: ms)) = 1 + jsizeMembers m ms := by simp [jsize]
            omega
          have hm := ihM m ms rest hsz' hsep
          simp only [strCharsV, List.cons_append, List.append_assoc, List.singleton_append]
          simp [parseVal, hhead, hm]
    · intro j js rest hsz hsep
      cases js with
      | nil =>
        have h1 : jsize j ≤ f := by
          simp only [jsizeItems] at hsz
          omega
        have hv := ihV j (']' :: rest) h1 (by rfl)
        simp only [strCharsItems]
        simp [parseItems, hv]
      | cons k js =>
        have h1 : jsize j ≤ f := by
          simp only [jsizeItems] at hsz
          omega
        have h2 : jsizeItems k js ≤ f := by
          simp only [jsizeItems] at hsz
          omega
        have hv := ihV j (',' :: (strCharsItems k js ++ ']' :: rest)) h1 (by rfl)
        have hi := ihI k js rest h2 hsep
        simp only [strCharsItems, List.cons_append, List.append_assoc]
        simp [parseItems, hv, hi]
    · intro m ms rest hsz hsep
      obtain ⟨k, v⟩ := m
      cases ms with
      | nil =>
        have hk : k.data.length + 1 ≤ f := by
          simp only [jsizeMembers] at hsz
          have h2 : k.length = k.data.length := rfl
          omega
        have hjv : jsize v ≤ f := by
          simp only [jsizeMembers] at hsz
          omega
        have hs := parseStr_esc k.data f (':' :: (strCharsV v ++ '\x7d' :: rest)) hk
        have hv := ihV v ('\x7d' :: rest) hjv (by rfl)
        simp only [strCharsMembers, List.cons_append, List.append_assoc]
        simp [parseMembers, hs, hv, string_mk_data]
      | cons m ms =>
        have hk : k.data.length + 1 ≤ f := by
          simp only [jsizeMembers] at hsz
          have h2 : k.length = k.data.length := rfl
          omega
        have hjv : jsize v ≤ f := by
          simp only [jsizeMembers] at hsz
          omega
        have h3 : jsizeMembers m ms ≤ f := by
          simp only [jsizeMembers] at hsz
          have := one_le_jsizeMembers m ms
          omega
        have hs := parseStr_esc k.data f
          (':' :: (strCharsV v ++ ',' :: (strCharsMembers m ms ++ '\x7d' :: rest))) hk
        have hv := ihV v (',' :: (strCharsMembers m ms ++ '\x7d' :: rest)) hjv (by rfl)
        have hm := ihM m ms rest h3 hsep
        simp only [strCharsMembers, List.cons_append, List.append_assoc]
        simp [parseMembers, hs, hv, hm, string_mk_data]

theorem json_sizeOf_pos (j : Json) : 1 ≤ sizeOf j := by
  cases j <;> simp

theorem jsize_le_len : ∀ N : Nat,
    (∀ j : Json, sizeOf j ≤ N → jsize j ≤ (strCharsV j).length) ∧
    (∀ (j : Json) (js : List Json), sizeOf j + sizeOf js ≤ N →
      jsizeItems j js ≤ (strCharsItems j js).length + 1) ∧
    (∀ (m : String × Json) (ms : List (String × Json)), sizeOf m + sizeOf ms ≤ N →
      jsizeMembers m ms ≤ (strCharsMembers m ms).length + 1) := by
  intro N
  induction N with
  | zero =>
    refine ⟨fun j h => absurd h (by have := json_sizeOf_pos j; omega),
      fun j js h => absurd h (by have := json_sizeOf_pos j; omega),
      fun m ms h => ?_⟩
    obtain ⟨k, v⟩ := m
    exact absurd h (by simp)
  | succ N ih =>
    obtain ⟨ihV, ihI, ihM⟩ := ih
    refine ⟨?_, ?_, ?_⟩
    · intro j hsz
      cases j with
      | null => simp [jsize, strCharsV]
      | bool b => cases b <;> simp [jsize, strCharsV]
      | num n =>
        have hlen : 1 ≤ (strCharsV (.num n)).length := by
          obtain ⟨c, cs, hc, _⟩ := strCharsV_head (.num n)
          rw [hc]
          simp
        simp only [jsize]
        omega
      | str s =>
        have h1 : s.data.length ≤ (escChars s.data).length := escChars_length s.data
        have h2 : s.length = s.data.length := rfl
        simp only [jsize, strCharsV, List.length_cons, List.length_append]
        simp
        omega
      | arr js =>
        cases js with
        | nil => simp [jsize, strCharsV]
        | cons j js =>
          have hsub : sizeOf j + sizeOf js ≤ N := by
            simp at hsz
            omega
          have := ihI j js hsub
          simp only [jsize, strCharsV, List.length_cons, List.length_append]
          simp
          omega
      | obj ms =>
        cases ms with
        | nil => simp [jsize, strCharsV]
        | cons m ms =>
          have hsub : sizeOf m + sizeOf ms ≤ N := by
            simp at hsz
            omega
          have := ihM m ms hsub
          simp only [jsize, strCharsV, List.length_cons, List.length_append]
          simp
          omega
    · intro j js hsz
      cases js with
      | nil =>
        have hj : sizeOf j ≤ N := by
          simp at hsz
          omega
        have := ihV j hj
        simp only [jsizeItems, strCharsItems]
        omega
      | cons k js =>
        have hj : sizeOf j ≤ N := by
          simp at hsz
          have := json_sizeOf_pos k
          omega
        have hk : sizeOf k + sizeOf js ≤ N := by
          simp at hsz
          have := json_sizeOf_pos j
          omega
        have h1 := ihV j hj
        have h2 := ihI k js hk
        simp only [jsizeItems, strCharsItems, List.length_append, List.length_cons]
        omega
    · intro m ms hsz
      obtain ⟨k, v⟩ := m
      have hv : sizeOf v ≤ N := by
        simp at hsz
        omega
      have h1 := ihV v hv
      have h2 : k.length = k.data.length := rfl
      have h3 : k.data.length ≤ (escChars k.data).length := escChars_length k.data
      cases ms with
      | nil =>
        simp only [jsizeMembers, strCharsMembers, List.length_cons, List.length_append]
        omega
      | cons m ms =>
        have hm : sizeOf m + sizeOf ms ≤ N := by
          simp at hsz
          have := json_sizeOf_pos v
          omega
        have h4 := ihM m ms hm
        simp only [jsizeMembers, strCharsMembers, List.length_cons, List.length_append]
        omega

/-- Parsing inverts serialization (`JSON.parse` of `JSON.stringify`): the serialize-on-write,
deserialize-on-read pipeline is the identity on JSON values. -/
theorem Json.parse_stringify (j : Json) : Json.parse (Json.stringify j) = some j := by
  have hsz : jsize j ≤ (strCharsV j).length + 1 := by
    have := (jsize_le_len (sizeOf j)).1 j le_rfl
    omega
  have hP := (parseRound ((strCharsV j).length + 1)).1 j [] hsz rfl
  rw [List.append_nil] at hP
  have hl : (Json.stringify j).length = (strCharsV j).length := rfl
  have hd : (Json.stringify j).data = strCharsV j := rfl
  unfold Json.parse
  rw [hl, hd, hP]

/-! ### The store model and the /write handlers -/

/-- A stored node: Neo4j nodes as written by this API (every write mode
sets `text`, `context` and `createdAt`; `updatedAt` only in overwrite
mode). -/
structure MNode where
  id : Nat
  label : String
  text : String
  context : String
  createdAt : String
  updatedAt : Option String
deriving Repr, DecidableEq

/-- The Neo4j database: the list of nodes (in creation order) and the next
internal node id. -/
structure Store where
  nodes : List MNode
  nextId : Nat
deriving Repr, DecidableEq

/-- The `MERGE (n:label ...)` match on a text key: the first node carrying the
label and text. -/
def findNode (st : Store) (label text : String) : Option MNode :=
  st.nodes.find? (fun n => n.label == label && n.text == text)

/-- A `SET` applied through a matched `MERGE`: every matching node is
updated. -/
def updateMatching (st : Store) (label text : String) (upd : MNode → MNode) : Store :=
  { st with nodes := st.nodes.map (fun n => if n.label == label && n.text == text then upd n else n) }

/-- A `CREATE` (or `MERGE`-create) of a fresh node. -/
def createNode (st : Store) (label text context createdAt : String)
    (updatedAt : Option String) : Store × MNode :=
  let n : MNode := { id := st.nextId, label := label, text := text, context := context,
                     createdAt := createdAt, updatedAt := updatedAt }
  ({ nodes := st.nodes ++ [n], nextId := st.nextId + 1 }, n)

/-- One relationship descriptor of a /write body; absent fields are
`none`. -/
structure RelDesc where
  from_ : Option String := none
  to_ : Option String := none
  type : Option String := none
deriving Repr, DecidableEq

/-- JavaScript truthiness of an optional string. -/
def truthyS : Option String → Bool
  | none => false
  | some s => s != ""

/-- The check `!from || !to || !type`, negated: the descriptor is processed only when
all three fields are truthy. -/
def relTruthy (r : RelDesc) : Bool :=
  truthyS r.from_ && truthyS r.to_ && truthyS r.type

/-- src/unnamed/part_001 line 117: `type.replace(/[^A-Z0-9_]/gi, "_")`.
The `i` flag makes the character class case-insensitive, so lowercase
letters are left untouched as well. -/
def safeType (type : String) : String :=
  ⟨type.data.map (fun c =>
    if ('A' ≤ c && c ≤ 'Z') || ('a' ≤ c && c ≤ 'z') || ('0' ≤ c && c ≤ '9') || c = '_'
    then c else '_')⟩

/-- A relationship `MERGE` statement as issued by a /write handler:
which label constrains the endpoint `MATCH`, the two text parameters, the
type text interpolated into the pattern, and the timestamp parameter when
the statement sets `r.createdAt`. -/
structure RelStmt where
  matchLabel : Option String
  from_ : String
  to_ : String
  relType : String
  createdAtParam : Option String
deriving Repr, DecidableEq

/-- src/server.js lines 104–116: one statement per complete descriptor;
the `type` is interpolated verbatim (this file has no sanitizer); both
endpoints are matched with the `Memory` label; no timestamp is set. -/
def serverJs_relStmts : List RelDesc → List RelStmt
  | [] => []
  | r :: rest =>
    if relTruthy r then
      { matchLabel := some "Memory", from_ := r.from_.getD "", to_ := r.to_.getD "",
        relType := r.type.getD "", createdAtParam := none } :: serverJs_relStmts rest
    else serverJs_relStmts rest

/-- src/unnamed/part_001 lines 112–126: sanitize the type with `safeType`,
match the endpoints by text with no label, set `r.createdAt` on create. -/
def part001_relStmts (ts : String) : List RelDesc → List RelStmt
  | [] => []
  | r :: rest =>
    if relTruthy r then
      { matchLabel := none, from_ := r.from_.getD "", to_ := r.to_.getD "",
        relType := safeType (r.type.getD ""), createdAtParam := some ts }
        :: part001_relStmts ts rest
    else part001_relStmts ts rest

/-- A /write request body after destructuring with its defaults
(server.js has no `label` field and always uses `Memory`). -/
structure WriteReq where
  text : String
  label : String := "Memory"
  context : Json := .obj []
  relationships : List RelDesc := []
  mode : String := "create"

/-- The JSON responses of the /write handlers: `{status:"skipped", node}`,
`{status:"ok", mode, nodeId}` (server.js) and
`{status:"ok", label, mode, nodeId}` (part_001). -/
inductive WriteResp where
  | skipped (node : String)
  | okV1 (mode : String) (nodeId : String)
  | okV2 (label mode : String) (nodeId : String)
deriving Repr, DecidableEq

/-- src/server.js line 54: `JSON.stringify(context)` unconditionally. -/
def serverJs_contextString (context : Json) : String := Json.stringify context

/-- src/unnamed/part_001 lines 80–81: stringify objects, `String(context)`
otherwise. -/
def part001_contextString (context : Json) : String :=
  if isJsObject context then Json.stringify context else jsToString context

/-- Result of a successful /write: the response, the updated store, and
the relationship statements issued after the node statement. -/
structure WriteOut where
  resp : WriteResp
  store : Store
  relStmts : List RelStmt
deriving Repr, DecidableEq

/-- The /write handler of src/server.js (lines 46–125) on the success
path, as a function of the store, the request and the request timestamp.
Relationship statements are returned rather than interpreted (the claims
are about which statements are issued).  In skip mode the `existed` flag
is `exists(n.context)` evaluated by `RETURN` after `ON CREATE SET`, so it
is true on the freshly-created path as well — every path of this API sets
`context` — and the handler short-circuits to `{status:"skipped"}` without
touching the relationships in both skip cases. -/
def serverJs_write (st : Store) (req : WriteReq) (ts : String) : WriteOut :=
  let contextString := serverJs_contextString req.context
  if req.mode = "overwrite" then
    match findNode st "Memory" req.text with
    | some n =>
      let st' := updateMatching st "Memory" req.text
        (fun m => { m with context := contextString, updatedAt := some ts })
      { resp := .okV1 req.mode (toString n.id), store := st',
        relStmts := serverJs_relStmts req.relationships }
    | none =>
      let p := createNode st "Memory" req.text contextString ts (some ts)
      { resp := .okV1 req.mode (toString p.2.id), store := p.1,
        relStmts := serverJs_relStmts req.relationships }
  else if req.mode = "skip" then
    match findNode st "Memory" req.text with
    | some _ =>
      { resp := .skipped req.text, store := st, relStmts := [] }
    | none =>
      let p := createNode st "Memory" req.text contextString ts none
      { resp := .skipped req.text, store := p.1, relStmts := [] }
  else
    let p := createNode st "Memory" req.text contextString ts none
    { resp := .okV1 req.mode (toString p.2.id), store := p.1,
      relStmts := serverJs_relStmts req.relationships }

/-- The /write handler of src/unnamed/part_001 (lines 65–136) on the
success path.  Note the skip branch has no short-circuit: it merges with
`ON CREATE SET` only (leaving an existing node untouched), then processes
the relationships and responds `{status:"ok", label, mode, nodeId}` like
the other modes. -/
def part001_write (st : Store) (req : WriteReq) (ts : String) : WriteOut :=
  let contextString := part001_contextString req.context
  if req.mode = "overwrite" then
    match findNode st req.label req.text with
    | some n =>
      let st' := updateMatching st req.label req.text
        (fun m => { m with context := contextString, updatedAt := some ts })
      { resp := .okV2 req.label req.mode (toString n.id), store := st',
        relStmts := part001_relStmts ts req.relationships }
    | none =>
      let p := createNode st req.label req.text contextString ts (some ts)
      { resp := .okV2 req.label req.mode (toString p.2.id), store := p.1,
        relStmts := part001_relStmts ts req.relationships }
  else if req.mode = "skip" then
    match findNode st req.label req.text with
    | some n =>
      { resp := .okV2 req.label req.mode (toString n.id), store := st,
        relStmts := part001_relStmts ts req.relationships }
    | none =>
      let p := createNode st req.label req.text contextString ts none
      { resp := .okV2 req.label req.mode (toString p.2.id), store := p.1,
        relStmts := part001_relStmts ts req.relationships }
  else
    let p := createNode st req.label req.text contextString ts none
    { resp := .okV2 req.label req.mode (toString p.2.id), store := p.1,
      relStmts := part001_relStmts ts req.relationships }

/-! ### The /query handlers -/

/-- Test whether the haystack starts with the needle, on character lists. -/
def startsWithL : List Char → List Char → Bool
  | _, [] => true
  | [], _ :: _ => false
  | c :: cs, d :: ds => c = d && startsWithL cs ds

/-- Model of `String.prototype.includes`: some suffix of the haystack starts with
the needle. -/
def containsSeq (needle : List Char) : List Char → Bool
  | [] => needle.isEmpty
  | c :: cs => startsWithL (c :: cs) needle || containsSeq needle cs

/-- Model of `hay.includes(needle)` on strings. -/
def jsIncludes (hay needle : String) : Bool :=
  containsSeq needle.data hay.data

/-- Model of `String.prototype.toLowerCase` (character-wise). -/
def jsToLowerCase (s : String) : String :=
  ⟨s.data.map Char.toLower⟩

/-- A /query request body after destructuring with its defaults
(server.js has neither `preset` nor `limit`; `none` models an absent
field, on which the destructuring defaults fire). -/
structure QueryReq where
  cypher : Option String := none
  preset : Option String := none
  format : String := "records"
  limit : Option Int := none
deriving Repr, DecidableEq

/-- The four preset templates of part_001 (lines 155–178), whitespace
normalized to single spaces. -/
def presetCypher : String → Option String
  | "getAllPersons" => some "MATCH (p:Person) RETURN p LIMIT $limit"
  | "getAllCompanies" => some "MATCH (c:Company) RETURN c LIMIT $limit"
  | "getGraphSnapshot" => some "MATCH (a)-[r]->(b) RETURN a, r, b LIMIT $limit"
  | "getInsights" => some "MATCH (i:Insight)-[rel]->(n) RETURN i, rel, n LIMIT $limit"
  | _ => none

/-- Outcome of the pre-execution part of part_001 /query: a 400 client
error, or a `session.run` with the resolved query text, the bound
`$limit` value, and the response fields echoed on success. -/
inductive QPlan where
  | clientError (msg : String)
  | run (query : String) (limitParam : Int) (echoPreset : String) (format : String)
deriving Repr, DecidableEq

/-- Cypher resolution of part_001 /query (lines 152–191): a truthy
literal `cypher` short-circuits everything; otherwise a truthy `preset`
is resolved (unknown names → 400; the quote characters around the name in
the error message are not modelled); otherwise 400 for the missing
query. -/
def part001_finalCypher (req : QueryReq) : Except String String :=
  if truthyS req.cypher then .ok (req.cypher.getD "")
  else if truthyS req.preset then
    match presetCypher (req.preset.getD "") with
    | some q => .ok q
    | none => .error ("Unknown preset " ++ req.preset.getD "")
  else .error "Missing Cypher query or invalid type."

/-- Pre-execution semantics of part_001 /query (lines 140–202): resolve
the query, apply the destructive-keyword guard on the lowercased text,
then run with `Number(limit)` (default 250) bound as `$limit` and
`preset || "custom"` echoed in the response. -/
def part001_queryPlan (req : QueryReq) : QPlan :=
  match part001_finalCypher req with
  | .error e => .clientError e
  | .ok q =>
    let lowered := jsToLowerCase q
    if jsIncludes lowered "delete" || jsIncludes lowered "drop" then
      .clientError "Dangerous Cypher command detected. DELETE/DROP not allowed via API."
    else
      .run q (req.limit.getD 250)
        (if truthyS req.preset then req.preset.getD "" else "custom") req.format

/-- Outcome of the pre-execution part of src/server.js /query. -/
inductive QPlanV1 where
  | clientError (msg : String)
  | run (query : String) (format : String)
deriving Repr, DecidableEq

/-- Pre-execution semantics of src/server.js /query (lines 129–185): only
the missing/invalid-cypher check — this file has no destructive-keyword
guard, no presets and no limit parameter. -/
def serverJs_queryPlan (req : QueryReq) : QPlanV1 :=
  if truthyS req.cypher then .run (req.cypher.getD "") req.format
  else .clientError "Missing or invalid Cypher query string."

/-! ### The /graph handler of part_001 -/

/-- part_001 /graph limit coercion (lines 245–248):
`Math.max(0, parseInt(req.body.limit ?? 500, 10) || 0)`, modelled on
integer-valued request limits (on which `parseInt` is the identity). -/
def part001_graphLimit (rawLimit : Option Int) : Int :=
  max 0 (rawLimit.getD 500)

/-- The properties of one endpoint node as returned by the snapshot
query: `text` plus the optional `label`/`context` properties the handler
reads. -/
structure GProps where
  text : String
  label : Option String := none
  context : Option String := none
deriving Repr, DecidableEq

/-- One `(a)-[r]->(b)` row of the snapshot query. -/
structure GRecord where
  a : GProps
  relType : String
  b : GProps
deriving Repr, DecidableEq

/-- One entry of the response `nodes` array. -/
structure GNode where
  id : String
  label : String
  text : String
  context : Json
deriving Repr

/-- One entry of the response `links` array. -/
structure GLink where
  source : String
  target : String
  type : String
deriving Repr, DecidableEq

/-- part_001's in-handler `safeParse` (lines 293–302): parse string
contexts, wrap unparsable strings as `{raw: value}`, default `{}` for an
absent value. -/
def safeParse : Option String → Json
  | some s =>
    match Json.parse s with
    | some j => j
    | none => .obj [("raw", .str s)]
  | none => .obj []

/-- The fallback `a?.label || "Node"`. -/
def nodeLabel (l : Option String) : String :=
  if truthyS l then l.getD "" else "Node"

/-- The step `if (!nodes.has(id)) nodes.set(id, ...)`: insertion-ordered
deduplication by `text`. -/
def addGNode (nodes : List GNode) (p : GProps) : List GNode :=
  if nodes.any (fun n => n.id == p.text) then nodes
  else nodes ++ [{ id := p.text, label := nodeLabel p.label, text := p.text,
                   context := safeParse p.context }]

/-- The record loop of part_001 /graph (lines 265–279). -/
def buildGraphGo : List GNode → List GLink → List GRecord → List GNode × List GLink
  | nodes, links, [] => (nodes, links)
  | nodes, links, r :: rest =>
    buildGraphGo (addGNode (addGNode nodes r.a) r.b)
      (links ++ [{ source := r.a.text, target := r.b.text, type := r.relType }]) rest

/-- part_001 /graph snapshot construction (lines 262–285): deduplicate
nodes by `text`, collect one link per returned triple, in record order. -/
def part001_buildGraph (recs : List GRecord) : List GNode × List GLink :=
  buildGraphGo [] [] recs

/-! ### The `format: "json"` normalization of /query -/

/-- Property read `obj[key].context` (objects only; JS property access on
other values yields `undefined`). -/
def getField (fields : List (String × Json)) (k : String) : Option Json :=
  (fields.find? (fun kv => kv.1 == k)).map (fun kv => kv.2)

/-- In-place property write `obj[key].context = parsed`. -/
def setContext (fields : List (String × Json)) (v : Json) : List (String × Json) :=
  fields.map (fun kv => if kv.1 == "context" then (kv.1, v) else kv)

/-- part_001 /query `format: "json"` normalization of one column value
(lines 211–219): a truthy string `context` property is JSON-parsed in
place; parse failures leave the record unchanged. -/
def part001_normalizeValue (v : Json) : Json :=
  match v with
  | .obj fields =>
    match getField fields "context" with
    | some (.str s) =>
      if s != "" then
        match Json.parse s with
        | some parsed => .obj (setContext fields parsed)
        | none => .obj fields
      else .obj fields
    | _ => .obj fields
  | _ => v

/-- The `for (const key in obj)` loop over one row. -/
def part001_normalizeRecord (record : List (String × Json)) : List (String × Json) :=
  record.map (fun kv => (kv.1, part001_normalizeValue kv.2))

/-! ### Session lifecycle traces -/

/-- Observable session events of one request. -/
inductive Ev where
  | openSession
  | runStmt
  | respond
  | closeSession
deriving Repr, DecidableEq

/-- Events of the relationship loop: one `runStmt` per complete
descriptor; `fail i` makes the i-th `session.run` of the request throw,
aborting the loop (the second component reports whether the loop
finished). -/
def relLoopTrace (fail : Nat → Bool) : Nat → List RelDesc → List Ev × Bool
  | _, [] => ([], true)
  | i, r :: rest =>
    if relTruthy r then
      if fail i then ([.runStmt], false)
      else
        let p := relLoopTrace fail (i + 1) rest
        (.runStmt :: p.1, p.2)
    else relLoopTrace fail i rest

/-- Session trace of src/server.js /write: open, node statement (a throw
is caught and answered with 500), the skip-mode early return, or the
relationship loop; the `finally` block closes the session after the
response on every path. -/
def serverJs_write_trace (req : WriteReq) (fail : Nat → Bool) : List Ev :=
  .openSession ::
    (if fail 0 then [.runStmt, .respond, .closeSession]
     else .runStmt ::
       (if req.mode = "skip" then [.respond, .closeSession]
        else (relLoopTrace fail 1 req.relationships).1 ++ [.respond, .closeSession]))

/-- Session trace of part_001 /write: as server.js but with no skip-mode
early return (and the early return would also close, being inside
`try`/`finally`). -/
def part001_write_trace (req : WriteReq) (fail : Nat → Bool) : List Ev :=
  .openSession ::
    (if fail 0 then [.runStmt, .respond, .closeSession]
     else .runStmt :: ((relLoopTrace fail 1 req.relationships).1 ++ [.respond, .closeSession]))

/-- Session trace of part_001 /query: the 400 returns happen inside
`try`, so `finally` closes after them as well; a throwing `session.run`
is caught and answered with 500, then closed. -/
def part001_query_trace (req : QueryReq) (fail : Nat → Bool) : List Ev :=
  .openSession ::
    (match part001_queryPlan req with
     | .clientError _ => [.respond, .closeSession]
     | .run _ _ _ _ =>
       if fail 0 then [.runStmt, .respond, .closeSession]
       else [.runStmt, .respond, .closeSession])

/-- Session trace of src/server.js /query (lines 129–185): the
missing-cypher 400 return happens inside `try` (so `finally` closes
after it); otherwise the query runs, a throw is caught and answered with
500, and `finally` closes either way. -/
def serverJs_query_trace (req : QueryReq) (fail : Nat → Bool) : List Ev :=
  .openSession ::
    (match serverJs_queryPlan req with
     | .clientError _ => [.respond, .closeSession]
     | .run _ _ =>
       if fail 0 then [.runStmt, .respond, .closeSession]
       else [.runStmt, .respond, .closeSession])

/-- Session trace of the /write handler of src/unnamed/part_000 (lines
52–123): the handler is textually part_001's /write — no skip-mode early
return — and its `finally` (lines 120–122) closes after the caught
node-statement throw, a mid-loop relationship throw, and success. -/
def part000_write_trace (req : WriteReq) (fail : Nat → Bool) : List Ev :=
  .openSession ::
    (if fail 0 then [.runStmt, .respond, .closeSession]
     else .runStmt :: ((relLoopTrace fail 1 req.relationships).1 ++ [.respond, .closeSession]))

/-- Session trace of the /query handler of src/unnamed/part_000 (lines
127–159): the same missing-cypher check as server.js (no presets, no
keyword guard), the 400 return inside `try`, and the `finally` (lines
156–158) closing on the 400, the caught throw, and success alike. -/
def part000_query_trace (req : QueryReq) (fail : Nat → Bool) : List Ev :=
  .openSession ::
    (if truthyS req.cypher then
       if fail 0 then [.runStmt, .respond, .closeSession]
       else [.runStmt, .respond, .closeSession]
     else [.respond, .closeSession])

/-- Session trace of part_001 /graph (lines 243–303): the session is
opened after the limit coercion, the snapshot query always runs (the
handler has no 400 path), the response is 200 or — when the run throws —
the caught 500, and the `finally` (lines 289–291) closes the session on
both paths. -/
def part001_graph_trace (fail : Nat → Bool) : List Ev :=
  .openSession ::
    (if fail 0 then [.runStmt, .respond, .closeSession]
     else [.runStmt, .respond, .closeSession])

/-! ### Supporting lemmas about the store and handlers -/

theorem find?_append_of_none {α : Type} (p : α → Bool) {l1 : List α} (l2 : List α)
    (h : l1.find? p = none) : (l1 ++ l2).find? p = l2.find? p := by
  induction l1 with
  | nil => simp
  | cons a l ih =>
    cases hpa : p a with
    | true => simp [List.find?_cons, hpa] at h
    | false =>
      simp only [List.find?_cons, hpa] at h
      simp only [List.cons_append, List.find?_cons, hpa]
      exact ih h

theorem findNode_after_create (st : Store) (label text cs ts : String) (upd : Option String)
    (h : findNode st label text = none) :
    findNode (createNode st label text cs ts upd).1 label text =
      some { id := st.nextId, label := label, text := text, context := cs,
             createdAt := ts, updatedAt := upd } := by
  unfold findNode createNode
  unfold findNode at h
  rw [find?_append_of_none _ _ h]
  simp

theorem find?_update {α : Type} (p : α → Bool) (u : α → α) (l : List α)
    (hu : ∀ a, p (u a) = p a) :
    (l.map (fun n => if p n then u n else n)).find? p = (l.find? p).map u := by
  induction l with
  | nil => rfl
  | cons a l ih =>
    cases hpa : p a with
    | true =>
      rw [List.map_cons, if_pos hpa,
        List.find?_cons_of_pos _ (by rw [hu a]; exact hpa),
        List.find?_cons_of_pos _ hpa]
      rfl
    | false =>
      rw [List.map_cons, if_neg (by rw [hpa]; exact Bool.false_ne_true),
        List.find?_cons_of_neg _ (by rw [hpa]; exact Bool.false_ne_true),
        List.find?_cons_of_neg _ (by rw [hpa]; exact Bool.false_ne_true), ih]

theorem findNode_after_update (st : Store) (label text cs ts : String) :
    findNode (updateMatching st label text
        (fun m => { m with context := cs, updatedAt := some ts })) label text =
      (findNode st label text).map (fun m => { m with context := cs, updatedAt := some ts }) := by
  unfold findNode updateMatching
  exact find?_update _ _ st.nodes (fun a => rfl)

theorem part001_relStmts_eq (ts : String) (rels : List RelDesc) :
    part001_relStmts ts rels = (rels.filter relTruthy).map (fun r =>
      { matchLabel := none, from_ := r.from_.getD "", to_ := r.to_.getD "",
        relType := safeType (r.type.getD ""), createdAtParam := some ts }) := by
  induction rels with
  | nil => rfl
  | cons r rest ih =>
    cases hr : relTruthy r with
    | true => simp [part001_relStmts, List.filter_cons, hr, ih]
    | false => simp [part001_relStmts, List.filter_cons, hr, ih]

theorem serverJs_relStmts_eq (rels : List RelDesc) :
    serverJs_relStmts rels = (rels.filter relTruthy).map (fun r =>
      { matchLabel := some "Memory", from_ := r.from_.getD "", to_ := r.to_.getD "",
        relType := r.type.getD "", createdAtParam := none }) := by
  induction rels with
  | nil => rfl
  | cons r rest ih =>
    cases hr : relTruthy r with
    | true => simp [serverJs_relStmts, List.filter_cons, hr, ih]
    | false => simp [serverJs_relStmts, List.filter_cons, hr, ih]

theorem part001_write_resp_store_ignore_rels (st : Store) (req : WriteReq) (ts : String)
    (rs : List RelDesc) :
    (part001_write st { req with relationships := rs } ts).resp = (part001_write st req ts).resp ∧
    (part001_write st { req with relationships := rs } ts).store =
      (part001_write st req ts).store := by
  by_cases h1 : req.mode = "overwrite"
  · cases hf : findNode st req.label req.text <;>
      simp [part001_write, h1, hf]
  · by_cases h2 : req.mode = "skip"
    · cases hf : findNode st req.label req.text <;>
        simp [part001_write, h1, h2, hf]
    · simp [part001_write, h1, h2]

theorem serverJs_write_resp_store_ignore_rels (st : Store) (req : WriteReq) (ts : String)
    (rs : List RelDesc) :
    (serverJs_write st { req with relationships := rs } ts).resp =
      (serverJs_write st req ts).resp ∧
    (serverJs_write st { req with relationships := rs } ts).store =
      (serverJs_write st req ts).store := by
  by_cases h1 : req.mode = "overwrite"
  · cases hf : findNode st "Memory" req.text <;>
      simp [serverJs_write, h1, hf]
  · by_cases h2 : req.mode = "skip"
    · cases hf : findNode st "Memory" req.text <;>
        simp [serverJs_write, h1, h2, hf]
    · simp [serverJs_write, h1, h2]

theorem mem_addGNode {nodes : List GNode} {p : GProps} {n : GNode}
    (h : n ∈ addGNode nodes p) : n ∈ nodes ∨ n.id = p.text := by
  unfold addGNode at h
  by_cases hany : nodes.any (fun m => m.id == p.text)
  · rw [if_pos hany] at h
    exact Or.inl h
  · rw [if_neg hany] at h
    rcases List.mem_append.mp h with h1 | h1
    · exact Or.inl h1
    · right
      rw [List.mem_singleton.mp h1]

theorem buildGraphGo_covered (recs : List GRecord) :
    ∀ (nodes : List GNode) (links : List GLink),
    (∀ n ∈ nodes, ∃ l ∈ links, l.source = n.id ∨ l.target = n.id) →
    ∀ n ∈ (buildGraphGo nodes links recs).1,
      ∃ l ∈ (buildGraphGo nodes links recs).2, l.source = n.id ∨ l.target = n.id := by
  induction recs with
  | nil =>
    intro nodes links hinv n hn
    simpa [buildGraphGo] using hinv n (by simpa [buildGraphGo] using hn)
  | cons r rest ih =>
    intro nodes links hinv n hn
    simp only [buildGraphGo] at hn ⊢
    refine ih _ _ ?_ n hn
    intro m hm
    have hlnk : ({ source := r.a.text, target := r.b.text, type := r.relType } : GLink)
        ∈ links ++ [{ source := r.a.text, target := r.b.text, type := r.relType }] := by
      simp
    rcases mem_addGNode hm with hm1 | hmb
    · rcases mem_addGNode hm1 with hm2 | hma
      · obtain ⟨l, hl, hrel⟩ := hinv m hm2
        exact ⟨l, List.mem_append_left _ hl, hrel⟩
      · exact ⟨_, hlnk, Or.inl hma.symm⟩
    · exact ⟨_, hlnk, Or.inr hmb.symm⟩

theorem trace_ends_close_serverJs (req : WriteReq) (fail : Nat → Bool) :
    ∃ pre, serverJs_write_trace req fail = pre ++ [Ev.closeSession] := by
  unfold serverJs_write_trace
  by_cases h0 : fail 0
  · exact ⟨[.openSession, .runStmt, .respond], by simp [h0]⟩
  · by_cases hm : req.mode = "skip"
    · exact ⟨[.openSession, .runStmt, .respond], by simp [h0, hm]⟩
    · exact ⟨.openSession :: .runStmt ::
        ((relLoopTrace fail 1 req.relationships).1 ++ [.respond]), by simp [h0, hm]⟩

theorem trace_ends_close_part001_write (req : WriteReq) (fail : Nat → Bool) :
    ∃ pre, part001_write_trace req fail = pre ++ [Ev.closeSession] := by
  unfold part001_write_trace
  by_cases h0 : fail 0
  · exact ⟨[.openSession, .runStmt, .respond], by simp [h0]⟩
  · exact ⟨.openSession :: .runStmt ::
      ((relLoopTrace fail 1 req.relationships).1 ++ [.respond]), by simp [h0]⟩

theorem trace_ends_close_part001_query (req : QueryReq) (fail : Nat → Bool) :
    ∃ pre, part001_query_trace req fail = pre ++ [Ev.closeSession] := by
  unfold part001_query_trace
  cases hp : part001_queryPlan req with
  | clientError msg => exact ⟨[.openSession, .respond], by simp⟩
  | run q lim echo fmt =>
    by_cases h0 : fail 0
    · exact ⟨[.openSession, .runStmt, .respond], by simp [h0]⟩
    · exact ⟨[.openSession, .runStmt, .respond], by simp [h0]⟩

theorem trace_ends_close_serverJs_query (req : QueryReq) (fail : Nat → Bool) :
    ∃ pre, serverJs_query_trace req fail = pre ++ [Ev.closeSession] := by
  unfold serverJs_query_trace
  cases hp : serverJs_queryPlan req with
  | clientError msg => exact ⟨[.openSession, .respond], by simp⟩
  | run q fmt =>
    by_cases h0 : fail 0
    · exact ⟨[.openSession, .runStmt, .respond], by simp [h0]⟩
    · exact ⟨[.openSession, .runStmt, .respond], by simp [h0]⟩

theorem trace_ends_close_part000_write (req : WriteReq) (fail : Nat → Bool) :
    ∃ pre, part000_write_trace req fail = pre ++ [Ev.closeSession] := by
  unfold part000_write_trace
  by_cases h0 : fail 0
  · exact ⟨[.openSession, .runStmt, .respond], by simp [h0]⟩
  · exact ⟨.openSession :: .runStmt ::
      ((relLoopTrace fail 1 req.relationships).1 ++ [.respond]), by simp [h0]⟩

theorem trace_ends_close_part000_query (req : QueryReq) (fail : Nat → Bool) :
    ∃ pre, part000_query_trace req fail = pre ++ [Ev.closeSession] := by
  unfold part000_query_trace
  by_cases hc : truthyS req.cypher
  · by_cases h0 : fail 0
    · exact ⟨[.openSession, .runStmt, .respond], by simp [hc, h0]⟩
    · exact ⟨[.openSession, .runStmt, .respond], by simp [hc, h0]⟩
  · exact ⟨[.openSession, .respond], by simp [hc]⟩

theorem trace_ends_close_part001_graph (fail : Nat → Bool) :
    ∃ pre, part001_graph_trace fail = pre ++ [Ev.closeSession] := by
  unfold part001_graph_trace
  by_cases h0 : fail 0
  · exact ⟨[.openSession, .runStmt, .respond], by simp [h0]⟩
  · exact ⟨[.openSession, .runStmt, .respond], by simp [h0]⟩

/-! ### Claim theorems -/

/-- C2: the relationship-type sanitizer does not restrict its output to
uppercase letters, digits and underscores — the `i` flag of
`/[^A-Z0-9_]/gi` makes lowercase letters survive, contradicting the
inline comment "only allow uppercase letters and underscores": on the
input "likes" the sanitizer substitutes nothing, and the result contains
characters outside `[A-Z0-9_]`. -/
theorem safeType_admits_lowercase :
    safeType "likes" = "likes" ∧
    ("likes".data.all (fun c => ('A' ≤ c && c ≤ 'Z') || ('0' ≤ c && c ≤ '9') || c = '_'))
      = false := by
  constructor
  · rfl
  · rfl

/-- C4 counterexample: the /query handler of src/server.js has no
destructive-keyword guard — a request whose query text contains
"DELETE" is executed, not rejected with a 400. -/
theorem serverJs_query_executes_delete :
    serverJs_queryPlan { cypher := some "MATCH (n) DETACH DELETE n" } =
      QPlanV1.run "MATCH (n) DETACH DELETE n" "records" := rfl

/-- C4 (amended): in part_001's /query handler, every request whose
resolved query text contains "delete" or "drop" in any letter case is
answered with the 400 danger message and no statement is run; the /query
handler of src/server.js executes such queries unguarded. -/
theorem part001_query_rejects_delete_drop (req : QueryReq) (q : String)
    (hq : part001_finalCypher req = Except.ok q)
    (hk : (jsIncludes (jsToLowerCase q) "delete" || jsIncludes (jsToLowerCase q) "drop")
      = true) :
    part001_queryPlan req =
      QPlan.clientError "Dangerous Cypher command detected. DELETE/DROP not allowed via API." := by
  unfold part001_queryPlan
  rw [hq]
  simp only [hk, if_true]

/-- Witness for C4's amended theorem at a concrete request. -/
theorem part001_query_rejects_delete_drop_witness :
    part001_queryPlan { cypher := some "MATCH (n) DETACH DELETE n" } =
      QPlan.clientError "Dangerous Cypher command detected. DELETE/DROP not allowed via API." :=
  part001_query_rejects_delete_drop { cypher := some "MATCH (n) DETACH DELETE n" }
    "MATCH (n) DETACH DELETE n" rfl rfl

/-- C6 counterexample: the /query handler of part_001 binds
`Number(limit)` without any non-negativity coercion, so a request with
`limit = -5` runs with the negative value bound — the claimed coercion to
a non-negative integer does not happen at /query. -/
theorem part001_query_negative_limit :
    part001_queryPlan { cypher := some "MATCH (n) RETURN n", limit := some (-5) } =
      QPlan.run "MATCH (n) RETURN n" (-5) "custom" "records" ∧ (-5 : Int) < 0 :=
  ⟨rfl, by decide⟩

/-- C6 (amended): /graph coerces its row limit to a non-negative integer
(`Math.max(0, parseInt(...))`) with default 500 when absent, while /query
binds the supplied limit unchanged (default 250 when absent), with no
non-negativity guarantee. -/
theorem limit_binding (l : Option Int) (req : QueryReq) (q : String) (lim : Int)
    (echo fmt : String) (h : part001_queryPlan req = QPlan.run q lim echo fmt) :
    0 ≤ part001_graphLimit l ∧ part001_graphLimit none = 500 ∧ lim = req.limit.getD 250 := by
  refine ⟨le_max_left 0 _, rfl, ?_⟩
  unfold part001_queryPlan at h
  cases hf : part001_finalCypher req with
  | error e =>
    rw [hf] at h
    exact absurd h (by simp)
  | ok q' =>
    rw [hf] at h
    dsimp only at h
    by_cases hg : (jsIncludes (jsToLowerCase q') "delete"
        || jsIncludes (jsToLowerCase q') "drop") = true
    · rw [if_pos hg] at h
      exact absurd h (by simp)
    · rw [if_neg hg] at h
      have := (QPlan.run.injEq _ _ _ _ _ _ _ _).mp h
      exact this.2.1.symm

/-- Witness for C6's amended theorem at concrete inputs. -/
theorem limit_binding_witness :
    0 ≤ part001_graphLimit (some (-3)) ∧ part001_graphLimit none = 500 ∧
      (7 : Int) = (some (7 : Int)).getD 250 :=
  limit_binding (some (-3)) { cypher := some "MATCH (n) RETURN n", limit := some 7 }
    "MATCH (n) RETURN n" 7 "custom" "records" rfl

/-- C10: when a /query request carries both a non-empty literal `cypher`
and a preset name, the literal cypher is the resolved query (executed
whenever the keyword guard passes), the preset is never resolved or
validated (no unknown-preset 400 is possible), and the response still
echoes the supplied preset name. -/
theorem literal_cypher_overrides_preset (req : QueryReq) (c p : String)
    (hc : req.cypher = some c) (hcne : c ≠ "") (hp : req.preset = some p) (hpne : p ≠ "") :
    part001_queryPlan req =
      (if (jsIncludes (jsToLowerCase c) "delete" || jsIncludes (jsToLowerCase c) "drop")
          = true
       then QPlan.clientError
          "Dangerous Cypher command detected. DELETE/DROP not allowed via API."
       else QPlan.run c (req.limit.getD 250) p req.format) := by
  have h1 : part001_finalCypher req = Except.ok c := by
    unfold part001_finalCypher
    rw [hc]
    simp [truthyS, hcne]
  unfold part001_queryPlan
  rw [h1]
  dsimp only
  have h2 : truthyS req.preset = true := by
    rw [hp]
    simp [truthyS, hpne]
  by_cases hg : (jsIncludes (jsToLowerCase c) "delete"
      || jsIncludes (jsToLowerCase c) "drop") = true
  · rw [if_pos hg, if_pos hg]
  · rw [if_neg hg, if_neg hg]
    rw [h2, if_pos rfl, hp]
    rfl

/-- Witness for C10 at a concrete request with an unknown preset name. -/
theorem literal_cypher_overrides_preset_witness :
    part001_queryPlan
        { cypher := some "MATCH (n) RETURN n", preset := some "noSuchPreset" } =
      QPlan.run "MATCH (n) RETURN n" 250 "noSuchPreset" "records" := by
  have h := literal_cypher_overrides_preset
    { cypher := some "MATCH (n) RETURN n", preset := some "noSuchPreset" }
    "MATCH (n) RETURN n" "noSuchPreset" rfl (by decide) rfl (by decide)
  simpa using h

/-- C1 counterexample: in part_001's /write handler, a skip-mode request
naming the existing entity "A" (with one complete relationship
descriptor) is not answered with `{status:"skipped"}` and its
relationship descriptor is processed (a statement is issued). -/
theorem part001_skip_counterexample :
    (part001_write
        { nodes := [{ id := 0, label := "Memory", text := "A", context := "x",
                      createdAt := "t0", updatedAt := none }], nextId := 1 }
        { text := "A", context := Json.str "c", mode := "skip",
          relationships := [{ from_ := some "A", to_ := some "B", type := some "LIKES" }] }
        "t1").resp ≠ WriteResp.skipped "A" ∧
    (part001_write
        { nodes := [{ id := 0, label := "Memory", text := "A", context := "x",
                      createdAt := "t0", updatedAt := none }], nextId := 1 }
        { text := "A", context := Json.str "c", mode := "skip",
          relationships := [{ from_ := some "A", to_ := some "B", type := some "LIKES" }] }
        "t1").relStmts ≠ [] := by
  constructor
  · decide
  · decide

/-- C1 (amended): for a skip-mode /write naming an existing entity, both
handlers leave the entity's `context`/`createdAt` (indeed the whole
store) unchanged; src/server.js short-circuits with
`{status:"skipped", node: text}` and issues no relationship statements,
while part_001 responds `{status:"ok", ...}` and processes the request's
relationship descriptors. -/
theorem skip_mode_existing_entity (st : Store) (req : WriteReq) (ts : String) (n : MNode)
    (hmode : req.mode = "skip") :
    (findNode st "Memory" req.text = some n →
      serverJs_write st req ts =
        { resp := .skipped req.text, store := st, relStmts := [] }) ∧
    (findNode st req.label req.text = some n →
      part001_write st req ts =
        { resp := .okV2 req.label "skip" (toString n.id), store := st,
          relStmts := part001_relStmts ts req.relationships }) := by
  constructor
  · intro h
    simp [serverJs_write, hmode, h]
  · intro h
    simp [part001_write, hmode, h]

/-- Witness for C1's amended theorem at a concrete store and request. -/
theorem skip_mode_existing_entity_witness :
    serverJs_write
        { nodes := [{ id := 0, label := "Memory", text := "A", context := "x",
                      createdAt := "t0", updatedAt := none }], nextId := 1 }
        { text := "A", context := Json.str "c", mode := "skip",
          relationships := [{ from_ := some "A", to_ := some "B", type := some "LIKES" }] }
        "t1" =
      { resp := .skipped "A",
        store := { nodes := [{ id := 0, label := "Memory", text := "A", context := "x",
                               createdAt := "t0", updatedAt := none }], nextId := 1 },
        relStmts := [] } ∧
    part001_write
        { nodes := [{ id := 0, label := "Memory", text := "A", context := "x",
                      createdAt := "t0", updatedAt := none }], nextId := 1 }
        { text := "A", context := Json.str "c", mode := "skip",
          relationships := [{ from_ := some "A", to_ := some "B", type := some "LIKES" }] }
        "t1" =
      { resp := .okV2 "Memory" "skip" (toString (0 : Nat)),
        store := { nodes := [{ id := 0, label := "Memory", text := "A", context := "x",
                               createdAt := "t0", updatedAt := none }], nextId := 1 },
        relStmts := part001_relStmts "t1"
          [{ from_ := some "A", to_ := some "B", type := some "LIKES" }] } := by
  have h := skip_mode_existing_entity
    { nodes := [{ id := 0, label := "Memory", text := "A", context := "x",
                  createdAt := "t0", updatedAt := none }], nextId := 1 }
    { text := "A", context := Json.str "c", mode := "skip",
      relationships := [{ from_ := some "A", to_ := some "B", type := some "LIKES" }] }
    "t1"
    { id := 0, label := "Memory", text := "A", context := "x",
      createdAt := "t0", updatedAt := none }
    rfl
  exact ⟨h.1 (by decide), h.2 (by decide)⟩

/-- C5: overwrite mode sets `context` and `updatedAt` on every call, and
sets `createdAt` (to the call's timestamp) only when the node is first
created — a later overwrite of the same `text` keeps the stored
`createdAt` (and id) and replaces only `context`/`updatedAt`; this holds
in part_001 (any label) and in server.js (label `Memory`) alike. -/
theorem overwrite_mode_semantics (st : Store) (req : WriteReq) (ts : String) (n : MNode)
    (hmode : req.mode = "overwrite") :
    (findNode st req.label req.text = none →
      findNode (part001_write st req ts).store req.label req.text =
        some { id := st.nextId, label := req.label, text := req.text,
               context := part001_contextString req.context, createdAt := ts,
               updatedAt := some ts }) ∧
    (findNode st req.label req.text = some n →
      findNode (part001_write st req ts).store req.label req.text =
        some { n with context := part001_contextString req.context,
                      updatedAt := some ts }) ∧
    (findNode st "Memory" req.text = none →
      findNode (serverJs_write st req ts).store "Memory" req.text =
        some { id := st.nextId, label := "Memory", text := req.text,
               context := serverJs_contextString req.context, createdAt := ts,
               updatedAt := some ts }) ∧
    (findNode st "Memory" req.text = some n →
      findNode (serverJs_write st req ts).store "Memory" req.text =
        some { n with context := serverJs_contextString req.context,
                      updatedAt := some ts }) := by
  refine ⟨?_, ?_, ?_, ?_⟩
  · intro h
    rw [show (part001_write st req ts).store =
        (createNode st req.label req.text (part001_contextString req.context) ts (some ts)).1
      from by simp [part001_write, hmode, h]]
    exact findNode_after_create st _ _ _ _ _ h
  · intro h
    rw [show (part001_write st req ts).store =
        updateMatching st req.label req.text
          (fun m => { m with context := part001_contextString req.context,
                             updatedAt := some ts })
      from by simp [part001_write, hmode, h]]
    rw [findNode_after_update, h]
    rfl
  · intro h
    rw [show (serverJs_write st req ts).store =
        (createNode st "Memory" req.text (serverJs_contextString req.context) ts (some ts)).1
      from by simp [serverJs_write, hmode, h]]
    exact findNode_after_create st _ _ _ _ _ h
  · intro h
    rw [show (serverJs_write st req ts).store =
        updateMatching st "Memory" req.text
          (fun m => { m with context := serverJs_contextString req.context,
                             updatedAt := some ts })
      from by simp [serverJs_write, hmode, h]]
    rw [findNode_after_update, h]
    rfl

/-- Witness for C5 at concrete stores: a first overwrite on an empty
store creates with `createdAt = "t1"`, a second overwrite at `"t2"`
keeps `createdAt = "t1"` while replacing `context`/`updatedAt`. -/
theorem overwrite_mode_semantics_witness :
    findNode (part001_write { nodes := [], nextId := 0 }
        { text := "A", context := Json.str "c", mode := "overwrite" } "t1").store "Memory" "A" =
      some { id := 0, label := "Memory", text := "A",
             context := part001_contextString (Json.str "c"), createdAt := "t1",
             updatedAt := some "t1" } ∧
    findNode (part001_write
        { nodes := [{ id := 0, label := "Memory", text := "A", context := "c",
                      createdAt := "t1", updatedAt := some "t1" }], nextId := 1 }
        { text := "A", context := Json.str "d", mode := "overwrite" } "t2").store "Memory" "A" =
      some { id := 0, label := "Memory", text := "A",
             context := part001_contextString (Json.str "d"), createdAt := "t1",
             updatedAt := some "t2" } := by
  have h1 := (overwrite_mode_semantics { nodes := [], nextId := 0 }
    { text := "A", context := Json.str "c", mode := "overwrite" } "t1"
    { id := 0, label := "Memory", text := "A", context := "c",
      createdAt := "t1", updatedAt := some "t1" } rfl).1 (by decide)
  have h2 := (overwrite_mode_semantics
    { nodes := [{ id := 0, label := "Memory", text := "A", context := "c",
                  createdAt := "t1", updatedAt := some "t1" }], nextId := 1 }
    { text := "A", context := Json.str "d", mode := "overwrite" } "t2"
    { id := 0, label := "Memory", text := "A", context := "c",
      createdAt := "t1", updatedAt := some "t1" } rfl).2.1 (by decide)
  exact ⟨h1, h2⟩

theorem stringify_ne_empty (j : Json) : (Json.stringify j != "") = true := by
  obtain ⟨c, cs, hc, _⟩ := strCharsV_head j
  simp only [Json.stringify, hc, bne_iff_ne, ne_eq]
  intro hcontra
  have := congrArg String.data hcontra
  simp at this

/-- C3: a JSON-serializable object written as `context` comes back
structurally identical through the /query `format:"json"` normalization
(serialize-on-write composed with parse-on-read is the identity), and a
stored context string that fails to JSON-parse is returned untouched. -/
theorem context_roundtrip :
    (∀ (j : Json) (t : String), isJsObject j = true →
      part001_normalizeValue (Json.obj
          [("text", Json.str t), ("context", Json.str (part001_contextString j))]) =
        Json.obj [("text", Json.str t), ("context", j)]) ∧
    (∀ (s t : String), Json.parse s = none →
      part001_normalizeValue (Json.obj [("text", Json.str t), ("context", Json.str s)]) =
        Json.obj [("text", Json.str t), ("context", Json.str s)]) := by
  constructor
  · intro j t hobj
    have hcs : part001_contextString j = Json.stringify j := by
      unfold part001_contextString
      rw [if_pos hobj]
    rw [hcs]
    simp [part001_normalizeValue, getField, setContext, stringify_ne_empty j,
      Json.parse_stringify j]
  · intro s t hs
    by_cases hse : s = ""
    · subst hse
      simp [part001_normalizeValue, getField]
    · simp [part001_normalizeValue, getField, hs, hse]

/-- Witness for C3 at a concrete object and a concrete unparsable
string. -/
theorem context_roundtrip_witness :
    part001_normalizeValue (Json.obj [("text", Json.str "A"),
        ("context", Json.str (part001_contextString (Json.obj [("a", Json.num 1)])))]) =
      Json.obj [("text", Json.str "A"), ("context", Json.obj [("a", Json.num 1)])] ∧
    part001_normalizeValue (Json.obj [("text", Json.str "A"), ("context", Json.str "bad")]) =
      Json.obj [("text", Json.str "A"), ("context", Json.str "bad")] :=
  ⟨context_roundtrip.1 (Json.obj [("a", Json.num 1)]) "A" rfl,
   context_roundtrip.2 "bad" "A" rfl⟩

/-- C7: a relationship descriptor with a missing or falsy `from`, `to` or
`type` is silently dropped: the statements issued are exactly one per
fully-truthy descriptor (in order, each independent of the dropped ones),
and the handler response does not depend on the relationship list at all
— in part_001 and server.js alike. -/
theorem incomplete_relationships_skipped (st : Store) (req : WriteReq) (ts : String)
    (rs : List RelDesc) :
    part001_relStmts ts req.relationships =
      (req.relationships.filter relTruthy).map (fun r =>
        { matchLabel := none, from_ := r.from_.getD "", to_ := r.to_.getD "",
          relType := safeType (r.type.getD ""), createdAtParam := some ts }) ∧
    serverJs_relStmts req.relationships =
      (req.relationships.filter relTruthy).map (fun r =>
        { matchLabel := some "Memory", from_ := r.from_.getD "", to_ := r.to_.getD "",
          relType := r.type.getD "", createdAtParam := none }) ∧
    (part001_write st { req with relationships := rs } ts).resp =
      (part001_write st req ts).resp ∧
    (serverJs_write st { req with relationships := rs } ts).resp =
      (serverJs_write st req ts).resp :=
  ⟨part001_relStmts_eq ts _, serverJs_relStmts_eq _,
   (part001_write_resp_store_ignore_rels st req ts rs).1,
   (serverJs_write_resp_store_ignore_rels st req ts rs).1⟩

/-- C8: every request handler that opens a database session — /write and
/query in src/server.js, /write and /query in src/unnamed/part_000, and
/write, /query and /graph in src/unnamed/part_001; no other handler
opens one — closes it as the last event of every execution path:
node-statement failure, skip-mode early return, mid-loop relationship
failure, 400 returns, and success alike, for every request and failure
oracle. -/
theorem session_always_closed (wreq : WriteReq) (qreq : QueryReq) (fail : Nat → Bool) :
    (∃ pre, serverJs_write_trace wreq fail = pre ++ [Ev.closeSession]) ∧
    (∃ pre, serverJs_query_trace qreq fail = pre ++ [Ev.closeSession]) ∧
    (∃ pre, part000_write_trace wreq fail = pre ++ [Ev.closeSession]) ∧
    (∃ pre, part000_query_trace qreq fail = pre ++ [Ev.closeSession]) ∧
    (∃ pre, part001_write_trace wreq fail = pre ++ [Ev.closeSession]) ∧
    (∃ pre, part001_query_trace qreq fail = pre ++ [Ev.closeSession]) ∧
    (∃ pre, part001_graph_trace fail = pre ++ [Ev.closeSession]) :=
  ⟨trace_ends_close_serverJs wreq fail, trace_ends_close_serverJs_query qreq fail,
   trace_ends_close_part000_write wreq fail, trace_ends_close_part000_query qreq fail,
   trace_ends_close_part001_write wreq fail, trace_ends_close_part001_query qreq fail,
   trace_ends_close_part001_graph fail⟩

/-- C9: every node of a /graph snapshot is the source or the target of at
least one returned link, so an isolated entity never appears among the
snapshot's nodes. -/
theorem graph_nodes_covered (recs : List GRecord) (n : GNode)
    (hn : n ∈ (part001_buildGraph recs).1) :
    ∃ l ∈ (part001_buildGraph recs).2, l.source = n.id ∨ l.target = n.id := by
  unfold part001_buildGraph at hn ⊢
  exact buildGraphGo_covered recs [] []
    (fun m hm => absurd hm (List.not_mem_nil m)) n hn

/-- Witness for C9 at a one-record snapshot. -/
theorem graph_nodes_covered_witness :
    ∃ l ∈ (part001_buildGraph
        [{ a := { text := "A" }, relType := "LIKES", b := { text := "B" } }]).2,
      l.source = "A" ∨ l.target = "A" := by
  have h := graph_nodes_covered
    [{ a := { text := "A" }, relType := "LIKES", b := { text := "B" } }]
    { id := "A", label := "Node", text := "A", context := Json.obj [] }
    (List.mem_cons_self _ _)
  simpa using h
